import Mathlib

/-!
# Verification of the CRP clustering core (`CRP_cluster.ipynb`)

A shallow embedding of the class `CRPClusterModel` from the notebook
`src/CRP_cluster.ipynb` (Chinese Restaurant Process infinite mixture model,
fit by collapsed Gibbs sampling), together with proofs and refutations of
the specified properties.

Modelling choices, all driven by the Python source:

* Python `float` arithmetic is embedded as exact rational arithmetic (`ℚ`).
  Note that in `ℚ` the Lean convention `x / 0 = 0` replaces the Python/numpy
  behaviour on a zero denominator (Python float division raises
  `ZeroDivisionError`; numpy produces `nan`/`inf` with a warning).  Comments
  mark the two places where a denominator can be zero.
* Each Python `set` object is a cell of an explicit heap (`St.heap`), and the
  lists `clustering` and `cluster_assn` hold object ids.  This models the
  source's aliasing exactly: `cluster_assn[i]` is a *reference* to the same
  mutable set object stored in `clustering`, so a mutation through one alias
  is visible through the other, and Python's `list.remove` compares set
  objects by *value* (`==` on sets), which the embedding reproduces.
* `np.random.choice(len(probs), p=probs)` is embedded as `npChoice`:
  numpy validates that `p` is non-negative and sums to 1 (exactly, in the
  rational model; numpy uses a floating tolerance) and then draws via the
  inverse-CDF method, consuming one uniform variate from the seeded
  generator.  The generator is modelled as a stream `us : ℕ → ℚ` of uniform
  variates; the k-th call to the sampler consumes `us k`.
* `crp_prior * likelihood` is numpy element-wise multiplication, including
  numpy's length-1 broadcasting rule (`npMul`); other length mismatches
  raise numpy's broadcast `ValueError`.
* Failures are modelled with `Except Err`.  The constructors prefixed with
  `spec` (`specInvalidProbabilityVector`, `specInvalidConfiguration`,
  `specContractViolation`) are *modelled from the spec's* error taxonomy
  (spec.md §7) solely so that theorems can speak about them; the source
  contains no corresponding `raise`, and the development proves that the
  embedded code never produces them.
-/

namespace CRP

/-- Errors that can abort a run.  The first six are the failure modes of the
actual Python/numpy code; the three `spec`-prefixed constructors are the
error taxonomy of the specification (spec.md §7), which the source never
raises — they exist only so that this fact can be stated. -/
inductive Err where
  /-- numpy `random.choice`: "probabilities are not non-negative". -/
  | samplerNonneg : Err
  /-- numpy `random.choice`: "probabilities do not sum to 1". -/
  | samplerSum : Err
  /-- numpy element-wise `*`: operands could not be broadcast together. -/
  | broadcastMismatch : Err
  /-- Python list indexing out of range. -/
  | indexError : Err
  /-- Python `set.remove` on an absent element. -/
  | keyError : Err
  /-- Python `list.remove(x)`: `x` not in list. -/
  | valueErrorRemove : Err
  /-- Spec §7 `InvalidProbabilityVector` (never raised by the source). -/
  | specInvalidProbabilityVector : Err
  /-- Spec §7 `InvalidConfiguration` (never raised by the source). -/
  | specInvalidConfiguration : Err
  /-- Spec §7 `ContractViolation` (never raised by the source). -/
  | specContractViolation : Err
deriving DecidableEq, Repr

instance {ε α : Type} [DecidableEq ε] [DecidableEq α] : DecidableEq (Except ε α)
  | .error a, .error b =>
      if h : a = b then .isTrue (by rw [h])
      else .isFalse (fun hc => by cases hc; exact h rfl)
  | .error _, .ok _ => .isFalse (fun hc => by cases hc)
  | .ok _, .error _ => .isFalse (fun hc => by cases hc)
  | .ok a, .ok b =>
      if h : a = b then .isTrue (by rw [h])
      else .isFalse (fun hc => by cases hc; exact h rfl)

/-- A cluster: a Python `set` of item indices. -/
abbrev Cluster := Finset ℕ

/-- The mutable program state.  `heap` is the arena of Python set objects;
`clustering` and `cluster_assn` are the two Python lists, holding object
ids (references) into the heap.  `draws` records the sequence of indices
returned by the categorical sampler (its length is also the count of
uniform variates consumed so far). -/
structure St where
  heap : List Cluster
  clustering : List ℕ
  cluster_assn : List ℕ
  draws : List ℕ
deriving DecidableEq

/-- Dereference a set-object id.  All ids created by the program are
in range; the default `∅` is never reached on reachable states. -/
def heapVal (heap : List Cluster) (oid : ℕ) : Cluster :=
  heap.getD oid ∅

/-- The value view of `clustering`: the list of cluster contents. -/
def clusterVals (s : St) : List Cluster :=
  s.clustering.map (heapVal s.heap)

/-- The value view of `cluster_assn`. -/
def assnVals (s : St) : List Cluster :=
  s.cluster_assn.map (heapVal s.heap)

/-- The CRP prior vector, exactly as built in the source:
`[(len(x) + 0.0) / (n + alpha) for x in clustering] + [alpha / (n + alpha)]`.
`initialize_assn` calls it with `n = i` (line 69-70) and `fit` with
`n = num_data - 1` (line 96-97).  When `n + alpha = 0` Python would raise
`ZeroDivisionError`; in `ℚ` every entry is then `0`. -/
def crp_prior (heap : List Cluster) (clustering : List ℕ) (n alpha : ℚ) : List ℚ :=
  clustering.map (fun oid => ((heapVal heap oid).card : ℚ) / (n + alpha))
    ++ [alpha / (n + alpha)]

/-- numpy element-wise multiplication of two 1-d arrays, including the
length-1 broadcasting rule; any other length mismatch is a broadcast
error (`ValueError: operands could not be broadcast together`). -/
def npMul (a b : List ℚ) : Except Err (List ℚ) :=
  if a.length = b.length then .ok (a.zipWith (· * ·) b)
  else if b.length = 1 then .ok (a.map (fun x => x * b.headI))
  else if a.length = 1 then .ok (b.map (fun y => a.headI * y))
  else .error .broadcastMismatch

/-- `probs = probs / np.sum(probs)`: numpy broadcast division by the scalar
sum.  numpy produces `nan`/`inf` entries on a zero sum (no exception); in
`ℚ` the entries are then `0`, and such a vector is subsequently rejected by
the sampler's own sum-to-1 validation. -/
def npNormalize (v : List ℚ) : List ℚ :=
  v.map (fun x => x / v.sum)

/-- numpy `cumsum`. -/
def cumsum : List ℚ → List ℚ
  | [] => []
  | x :: xs => x :: (cumsum xs).map (fun y => x + y)

/-- `ndarray.searchsorted(u, side='right')` on a sorted array: the number of
entries `≤ u`. -/
def searchsortedRight (xs : List ℚ) (u : ℚ) : ℕ :=
  xs.countP (fun c => decide (c ≤ u))

/-- `np.random.choice(len(p), p=p)`: validate `p` (non-negative, sums to 1 —
numpy uses a floating tolerance, exact in the rational model) and draw one
index by the inverse-CDF method from the uniform variate `u`. -/
def npChoice (p : List ℚ) (u : ℚ) : Except Err ℕ :=
  if p.any (fun x => decide (x < 0)) then .error .samplerNonneg
  else if p.sum = 1 then .ok (searchsortedRight (cumsum p) u)
  else .error .samplerSum

/-- Python list indexing `xs[n]` (for the non-negative indices used by the
source): `IndexError` when out of range. -/
def pyGet {α : Type} (xs : List α) (n : ℕ) : Except Err α :=
  match xs.get? n with
  | some x => .ok x
  | none => .error .indexError

/-- Python `clustering.remove(obj)` where the elements are ids of set
objects: removes the first element whose *value* equals the value of
`target` (Python `==` on sets compares contents), `ValueError` if none. -/
def pyListRemove (heap : List Cluster) : List ℕ → ℕ → Except Err (List ℕ)
  | [], _ => .error .valueErrorRemove
  | y :: ys, t =>
      if heapVal heap y = heapVal heap t then .ok ys
      else (pyListRemove heap ys t).map (fun zs => y :: zs)

/-- The sampler configuration, i.e. the attributes of a `CRPClusterModel`
instance (`alpha` plus the Gibbs sampling parameters, which per the class
docstring "can be specified" by assigning the attributes). -/
structure CRPClusterModel where
  alpha : ℚ
  num_iter : ℕ
  eb_start : ℕ
  eb_interval : ℕ
deriving DecidableEq, Repr

/-- `CRPClusterModel.__init__(self, alpha, likelihood_fn)`: stores `alpha`
unconditionally (no validation of any kind) and sets the fixed defaults
`num_iter = 100`, `eb_start = 20`, `eb_interval = 5`.  (`likelihood_fn` is
passed separately to the functions below.) -/
def CRPClusterModel.init (alpha : ℚ) : CRPClusterModel :=
  ⟨alpha, 100, 20, 5⟩

/-- The likelihood provider `likelihood_fn(data, i, clustering, cluster_assn)`
with the opaque `data` already applied: it receives the item index and the
*values* of the two shared lists, and returns a vector of reals. -/
abbrev Lik := ℕ → List Cluster → List Cluster → List ℚ

/-- The seeded randomness source: the stream of uniform variates in `[0,1)`
consumed by `np.random.choice`. -/
abbrev RngStream := ℕ → ℚ

/-- One iteration of the loop body of `initialize_assn` (source lines
68-83), for item `i`:

```
crp_prior = [(len(x) + 0.0) / (i + self.alpha) for j, x in enumerate(clustering)]
crp_prior.append(self.alpha / (i + self.alpha))
likelihood = self.likelihood_fn(data, i, clustering, cluster_assn)
probs = crp_prior * likelihood
probs = probs/np.sum(probs)
cluster = np.random.choice(len(probs), p=probs)
if cluster == len(clustering):
  s = set([i]); clustering.append(s)
else:
  clustering[cluster].add(i)
cluster_assn.append(clustering[cluster])
```
-/
def initStep (lik : Lik) (us : RngStream) (alpha : ℚ) (s : St) (i : ℕ) : Except Err St :=
  let prior := crp_prior s.heap s.clustering (i : ℚ) alpha
  let lvec := lik i (clusterVals s) (assnVals s)
  match npMul prior lvec with
  | .error e => .error e
  | .ok probs0 =>
    let probs := npNormalize probs0
    match npChoice probs (us s.draws.length) with
    | .error e => .error e
    | .ok c =>
      if c = s.clustering.length then
        -- s = set([i]); clustering.append(s); cluster_assn.append(clustering[cluster])
        let oid := s.heap.length
        .ok ⟨s.heap ++ [{i}], s.clustering ++ [oid], s.cluster_assn ++ [oid], s.draws ++ [c]⟩
      else
        -- clustering[cluster].add(i); cluster_assn.append(clustering[cluster])
        match pyGet s.clustering c with
        | .error e => .error e
        | .ok coid =>
          .ok ⟨s.heap.set coid (insert i (heapVal s.heap coid)), s.clustering,
               s.cluster_assn ++ [coid], s.draws ++ [c]⟩

/-- `initialize_assn(self, data)` (source lines 62-84): the sequential CRP
build-up over items `0 .. N-1`, starting from empty `clustering` and
`cluster_assn`. -/
def initialize_assn (lik : Lik) (us : RngStream) (alpha : ℚ) (N : ℕ) : Except Err St :=
  (List.range N).foldlM (initStep lik us alpha) ⟨[], [], [], []⟩

/-- One iteration of the inner loop of `fit` (source lines 92-110), for item
`i`; the second component of the state pair is `num_new_clusters`:

```
cluster_assn[i].remove(i)
if len(cluster_assn[i]) == 0:
    clustering.remove(cluster_assn[i])
crp_prior = [(len(x) + 0.0) / (num_data - 1 + self.alpha) for j, x in enumerate(clustering)]
crp_prior.append(self.alpha / (num_data - 1 + self.alpha))
likelihood = self.likelihood_fn(data, i, clustering, cluster_assn)
probs = crp_prior * likelihood
probs = probs/np.sum(probs)
cluster = np.random.choice(len(probs), p=probs)
if cluster == len(clustering):
    s = set([i]); clustering.append(s); num_new_clusters += 1
else:
    clustering[cluster].add(i)
cluster_assn[i] = clustering[cluster]
```
-/
def sweepStep (lik : Lik) (us : RngStream) (N : ℕ) (alpha : ℚ) (sn : St × ℕ) (i : ℕ) :
    Except Err (St × ℕ) :=
  let s := sn.1
  match pyGet s.cluster_assn i with
  | .error e => .error e
  | .ok oid =>
    -- cluster_assn[i].remove(i): KeyError when i is absent from the set
    if i ∈ heapVal s.heap oid then
      let heap1 := s.heap.set oid ((heapVal s.heap oid).erase i)
      let rem : Except Err (List ℕ) :=
        if heapVal heap1 oid = ∅ then pyListRemove heap1 s.clustering oid
        else .ok s.clustering
      match rem with
      | .error e => .error e
      | .ok clustering1 =>
        let prior := crp_prior heap1 clustering1 ((N : ℚ) - 1) alpha
        let lvec := lik i (clustering1.map (heapVal heap1)) (s.cluster_assn.map (heapVal heap1))
        match npMul prior lvec with
        | .error e => .error e
        | .ok probs0 =>
          let probs := npNormalize probs0
          match npChoice probs (us s.draws.length) with
          | .error e => .error e
          | .ok c =>
            if c = clustering1.length then
              let oid2 := heap1.length
              .ok (⟨heap1 ++ [{i}], clustering1 ++ [oid2],
                    s.cluster_assn.set i oid2, s.draws ++ [c]⟩, sn.2 + 1)
            else
              match pyGet clustering1 c with
              | .error e => .error e
              | .ok coid =>
                .ok (⟨heap1.set coid (insert i (heapVal heap1 coid)), clustering1,
                      s.cluster_assn.set i coid, s.draws ++ [c]⟩, sn.2)
    else .error .keyError

/-- One full Gibbs sweep over all items (the inner `for i in range(num_data)`
loop of `fit`), returning the new state together with the per-sweep
`num_new_clusters` counter, which starts at `0`. -/
def sweep (lik : Lik) (us : RngStream) (alpha : ℚ) (N : ℕ) (s : St) : Except Err (St × ℕ) :=
  (List.range N).foldlM (sweepStep lik us N alpha) (s, 0)

/-- A sweep followed by the Empirical Bayes adjustment (source lines 111-113):

```
if t % self.eb_interval == 0 and t > self.eb_start:
    self.alpha = num_new_clusters
```

The pair component is the live value of `self.alpha`.  (Python would raise
`ZeroDivisionError` on `t % 0`; Lean's `t % 0 = t` differs, so statements
about the schedule assume `0 < eb_interval`, which holds for the default 5.) -/
def sweepEB (lik : Lik) (us : RngStream) (eb_start eb_interval N t : ℕ)
    (sa : St × ℚ) : Except Err (St × ℚ) :=
  match sweep lik us sa.2 N sa.1 with
  | .error e => .error e
  | .ok (s1, numNew) =>
    .ok (s1, if t % eb_interval = 0 ∧ eb_start < t then (numNew : ℚ) else sa.2)

/-- `initialize_assn` followed by the first `t` sweeps of `fit` (with their
Empirical Bayes adjustments); the pair holds the state and the live
`self.alpha`. -/
def runPrefix (m : CRPClusterModel) (lik : Lik) (us : RngStream) (N t : ℕ) :
    Except Err (St × ℚ) :=
  match initialize_assn lik us m.alpha N with
  | .error e => .error e
  | .ok s0 =>
    (List.range t).foldlM
      (fun sa t' => sweepEB lik us m.eb_start m.eb_interval N t' sa) (s0, m.alpha)

/-- `fit(self, data)` (source lines 86-114) for a dataset of `N` items: run
`initialize_assn`, then `num_iter` Gibbs sweeps with Empirical Bayes
adjustment.  The returned state carries the final `clustering` and
`cluster_assn` (the source's return value), and the rational component is
the final value of the mutated attribute `self.alpha`. -/
def CRPClusterModel.fit (m : CRPClusterModel) (lik : Lik) (us : RngStream) (N : ℕ) :
    Except Err (St × ℚ) :=
  runPrefix m lik us N m.num_iter

/-! ### Concrete collaborators used to instantiate theorems on explicit inputs -/

/-- A well-behaved likelihood provider: the constant 1 for every cluster and
for the new-cluster slot (correct vector length `k + 1`). -/
def likOne : Lik := fun _ clus _ => List.replicate (clus.length + 1) 1

/-- A degenerate likelihood provider: all zeros (correct length). -/
def likZero : Lik := fun _ clus _ => List.replicate (clus.length + 1) 0

/-- A contract-violating provider that always returns a length-1 vector. -/
def likLen1 : Lik := fun _ _ _ => [1]

/-- A contract-violating provider that always returns a length-3 vector. -/
def likThree : Lik := fun _ _ _ => [1, 1, 1]

/-- A seeded randomness source: the constant stream 1/2. -/
def usHalf : RngStream := fun _ => 1/2

/-- A seeded randomness source: the constant stream 1/10. -/
def usTenth : RngStream := fun _ => 1/10

/-- Errors actually produced by the embedded Python/numpy code, as opposed
to the specification's own taxonomy. -/
abbrev coreErr (e : Err) : Prop :=
  e ≠ .specInvalidProbabilityVector ∧ e ≠ .specInvalidConfiguration ∧ e ≠ .specContractViolation

/-- Reference coherence for item `i`: the set object referenced by
`cluster_assn[i]` is an element of the `clustering` list (by object
identity) and contains `i`. -/
abbrev assnOk (heap : List Cluster) (clustering cluster_assn : List ℕ) (i : ℕ) : Prop :=
  cluster_assn.getD i 0 ∈ clustering ∧ i ∈ heapVal heap (cluster_assn.getD i 0)

/-- A list of cluster contents partitions the universe `U`: pairwise
disjoint, none empty, every member inside `U`, every element of `U`
covered. -/
abbrev GoodClusters (cs : List Cluster) (U : Finset ℕ) : Prop :=
  cs.Pairwise (fun A B => A ∩ B = ∅) ∧
  (∀ C ∈ cs, C ≠ ∅) ∧
  (∀ C ∈ cs, ∀ x ∈ C, x ∈ U) ∧
  (∀ x ∈ U, ∃ C ∈ cs, x ∈ C)

/-- The data-structure invariant of the sampler state for a dataset of `N`
items: one `cluster_assn` entry per item, the cluster contents partition
`{0, …, N-1}`, and every per-item reference is coherent. -/
abbrev Inv (s : St) (N : ℕ) : Prop :=
  s.cluster_assn.length = N ∧
  GoodClusters (clusterVals s) (Finset.range N) ∧
  ∀ i < N, assnOk s.heap s.clustering s.cluster_assn i

/-! ## Generic `Except` and `foldlM` lemmas -/

@[simp]
theorem errBind {α β : Type} (e : Err) (g : α → Except Err β) :
    (Except.error e : Except Err α) >>= g = .error e := rfl

@[simp]
theorem okBind {α β : Type} (a : α) (g : α → Except Err β) :
    (Except.ok a : Except Err α) >>= g = g a := rfl

@[simp]
theorem errMap {α β : Type} (e : Err) (f : α → β) :
    (Except.error e : Except Err α).map f = .error e := rfl

@[simp]
theorem okMap {α β : Type} (a : α) (f : α → β) :
    (Except.ok a : Except Err α).map f = .ok (f a) := rfl

theorem foldlM_range_succ {σ : Type} (f : σ → ℕ → Except Err σ) (s0 : σ) (N : ℕ) :
    (List.range (N + 1)).foldlM f s0 = (List.range N).foldlM f s0 >>= fun s => f s N := by
  rw [List.range_succ, List.foldlM_append]
  simp

theorem foldlM_range_invariant {σ : Type} (f : σ → ℕ → Except Err σ) (P : ℕ → σ → Prop)
    (N : ℕ) (hstep : ∀ k, k < N → ∀ s s', P k s → f s k = .ok s' → P (k + 1) s') :
    ∀ (M : ℕ), M ≤ N → ∀ (s0 sM : σ), P 0 s0 →
      (List.range M).foldlM f s0 = .ok sM → P M sM := by
  intro M
  induction M with
  | zero =>
      intro _ s0 sM h0 hrun
      simp only [List.range_zero, List.foldlM_nil, pure, Except.pure, Except.ok.injEq] at hrun
      exact hrun ▸ h0
  | succ n ih =>
      intro hM s0 sM h0 hrun
      rw [foldlM_range_succ] at hrun
      cases hmid : (List.range n).foldlM f s0 with
      | error e => rw [hmid] at hrun; exact Except.noConfusion (errBind e _ ▸ hrun)
      | ok smid =>
          rw [hmid, okBind] at hrun
          exact hstep n (Nat.lt_of_lt_of_le (Nat.lt_succ_self n) hM) smid sM
            (ih (Nat.le_of_succ_le hM) s0 smid h0 hmid) hrun

theorem foldlM_range_error {σ : Type} (f : σ → ℕ → Except Err σ) (Q : Err → Prop)
    (hstep : ∀ s k e, f s k = .error e → Q e) :
    ∀ (N : ℕ) (s0 : σ) (e : Err), (List.range N).foldlM f s0 = .error e → Q e := by
  intro N
  induction N with
  | zero =>
      intro s0 e hrun
      simp only [List.range_zero, List.foldlM_nil, pure, Except.pure] at hrun
      exact Except.noConfusion hrun
  | succ n ih =>
      intro s0 e hrun
      rw [foldlM_range_succ] at hrun
      cases hmid : (List.range n).foldlM f s0 with
      | error e' =>
          rw [hmid, errBind] at hrun
          injection hrun with h'
          exact h' ▸ ih s0 e' hmid
      | ok smid =>
          rw [hmid, okBind] at hrun
          exact hstep smid n e hrun

/-! ## The embedded code only produces its own failure modes, never the
spec's taxonomy -/

theorem npMul_coreErr {a b : List ℚ} {e : Err} (h : npMul a b = .error e) : coreErr e := by
  unfold npMul at h
  split_ifs at h
  injection h with h'
  subst h'
  decide

theorem npChoice_coreErr {p : List ℚ} {u : ℚ} {e : Err} (h : npChoice p u = .error e) :
    coreErr e := by
  unfold npChoice at h
  split_ifs at h <;>
    first
      | exact Except.noConfusion h
      | (injection h with h'; subst h'; decide)

theorem pyGet_coreErr {α : Type} {xs : List α} {n : ℕ} {e : Err} (h : pyGet xs n = .error e) :
    coreErr e := by
  unfold pyGet at h
  split at h
  · exact Except.noConfusion h
  · injection h with h'; subst h'; decide

theorem pyListRemove_nil (heap : List Cluster) (t : ℕ) :
    pyListRemove heap [] t = .error .valueErrorRemove := rfl

theorem pyListRemove_cons (heap : List Cluster) (y : ℕ) (ys : List ℕ) (t : ℕ) :
    pyListRemove heap (y :: ys) t =
      if heapVal heap y = heapVal heap t then .ok ys
      else (pyListRemove heap ys t).map (fun zs => y :: zs) := rfl

theorem pyListRemove_coreErr {heap : List Cluster} :
    ∀ {xs : List ℕ} {t : ℕ} {e : Err}, pyListRemove heap xs t = .error e → coreErr e := by
  intro xs
  induction xs with
  | nil =>
      intro t e h
      rw [pyListRemove_nil] at h
      injection h with h'; subst h'; decide
  | cons y ys ih =>
      intro t e h
      rw [pyListRemove_cons] at h
      split_ifs at h
      cases hrec : pyListRemove heap ys t with
      | error e' =>
          rw [hrec, errMap] at h
          injection h with h'
          exact h' ▸ ih hrec
      | ok zs => rw [hrec, okMap] at h; exact Except.noConfusion h

theorem initStep_coreErr {lik : Lik} {us : RngStream} {alpha : ℚ} {s : St} {i : ℕ} {e : Err}
    (h : initStep lik us alpha s i = .error e) : coreErr e := by
  unfold initStep at h
  dsimp only [] at h
  split at h
  · rename_i heq; injection h with h'; exact h' ▸ npMul_coreErr heq
  · split at h
    · rename_i heq; injection h with h'; exact h' ▸ npChoice_coreErr heq
    · split_ifs at h
      split at h
      · rename_i heq; injection h with h'; exact h' ▸ pyGet_coreErr heq
      · exact Except.noConfusion h

theorem sweepStep_coreErr {lik : Lik} {us : RngStream} {N : ℕ} {alpha : ℚ} {sn : St × ℕ}
    {i : ℕ} {e : Err} (h : sweepStep lik us N alpha sn i = .error e) : coreErr e := by
  unfold sweepStep at h
  dsimp only [] at h
  split at h
  · rename_i heq; injection h with h'; exact h' ▸ pyGet_coreErr heq
  · split_ifs at h with hmem hempty
    · split at h
      · rename_i heq; injection h with h'; exact h' ▸ pyListRemove_coreErr heq
      · split at h
        · rename_i heq; injection h with h'; exact h' ▸ npMul_coreErr heq
        · split at h
          · rename_i heq; injection h with h'; exact h' ▸ npChoice_coreErr heq
          · split_ifs at h
            split at h
            · rename_i heq; injection h with h'; exact h' ▸ pyGet_coreErr heq
            · exact Except.noConfusion h
    · dsimp only [] at h
      split at h
      · rename_i heq; injection h with h'; exact h' ▸ npMul_coreErr heq
      · split at h
        · rename_i heq; injection h with h'; exact h' ▸ npChoice_coreErr heq
        · split_ifs at h
          split at h
          · rename_i heq; injection h with h'; exact h' ▸ pyGet_coreErr heq
          · exact Except.noConfusion h
    · injection h with h'; subst h'; decide

theorem initialize_assn_coreErr {lik : Lik} {us : RngStream} {alpha : ℚ} {N : ℕ} {e : Err}
    (h : initialize_assn lik us alpha N = .error e) : coreErr e :=
  foldlM_range_error _ coreErr (fun _ _ _ hs => initStep_coreErr hs) N _ e h

theorem sweep_coreErr {lik : Lik} {us : RngStream} {alpha : ℚ} {N : ℕ} {s : St} {e : Err}
    (h : sweep lik us alpha N s = .error e) : coreErr e :=
  foldlM_range_error _ coreErr (fun _ _ _ hs => sweepStep_coreErr hs) N _ e h

theorem sweepEB_coreErr {lik : Lik} {us : RngStream} {ebs ebi N t : ℕ} {sa : St × ℚ} {e : Err}
    (h : sweepEB lik us ebs ebi N t sa = .error e) : coreErr e := by
  unfold sweepEB at h
  split at h
  · rename_i heq; injection h with h'; exact h' ▸ sweep_coreErr heq
  · exact Except.noConfusion h

theorem runPrefix_coreErr {m : CRPClusterModel} {lik : Lik} {us : RngStream} {N t : ℕ} {e : Err}
    (h : runPrefix m lik us N t = .error e) : coreErr e := by
  unfold runPrefix at h
  split at h
  · rename_i heq; injection h with h'; exact h' ▸ initialize_assn_coreErr heq
  · exact foldlM_range_error _ coreErr (fun _ _ _ hs => sweepEB_coreErr hs) t _ e h

theorem fit_coreErr {m : CRPClusterModel} {lik : Lik} {us : RngStream} {N : ℕ} {e : Err}
    (h : m.fit lik us N = .error e) : coreErr e :=
  runPrefix_coreErr h

/-! ## Heap and list access lemmas -/

theorem heapVal_lt_of_ne_empty {heap : List Cluster} {oid : ℕ} (h : heapVal heap oid ≠ ∅) :
    oid < heap.length := by
  by_contra hlt
  exact h (by simp [heapVal, List.getElem?_eq_none (Nat.le_of_not_lt hlt)])

theorem heapVal_set_self {heap : List Cluster} {oid : ℕ} (T : Cluster)
    (h : oid < heap.length) : heapVal (heap.set oid T) oid = T := by
  simp [heapVal, List.getElem?_set_self h]

theorem heapVal_set_ne {heap : List Cluster} {oid oid' : ℕ} (T : Cluster) (h : oid ≠ oid') :
    heapVal (heap.set oid T) oid' = heapVal heap oid' := by
  simp [heapVal, List.getElem?_set_ne h]

theorem heapVal_append_lt {heap : List Cluster} {oid : ℕ} (T : Cluster)
    (h : oid < heap.length) : heapVal (heap ++ [T]) oid = heapVal heap oid :=
  List.getD_append heap [T] ∅ oid h

theorem heapVal_append_self (heap : List Cluster) (T : Cluster) :
    heapVal (heap ++ [T]) heap.length = T := by
  unfold heapVal
  rw [List.getD_append_right heap [T] ∅ heap.length (Nat.le_refl _)]
  simp

theorem map_heapVal_set_of_not_mem {heap : List Cluster} {oid : ℕ} {T : Cluster}
    {ids : List ℕ} (h : oid ∉ ids) :
    ids.map (heapVal (heap.set oid T)) = ids.map (heapVal heap) :=
  List.map_congr_left (fun z hz => heapVal_set_ne T (fun he => h (by rw [he]; exact hz)))

theorem map_heapVal_append {heap : List Cluster} {T : Cluster} {ids : List ℕ}
    (h : ∀ z ∈ ids, z < heap.length) :
    ids.map (heapVal (heap ++ [T])) = ids.map (heapVal heap) :=
  List.map_congr_left (fun z hz => heapVal_append_lt T (h z hz))

theorem getD_mem {xs : List ℕ} {n : ℕ} (h : n < xs.length) : xs.getD n 0 ∈ xs := by
  rw [List.getD_eq_getElem _ _ h]
  exact List.getElem_mem h

theorem getD_set_self {xs : List ℕ} {n v : ℕ} (h : n < xs.length) :
    (xs.set n v).getD n 0 = v := by
  simp [List.getElem?_set_self h]

theorem getD_set_ne {xs : List ℕ} {m n v : ℕ} (h : n ≠ m) :
    (xs.set n v).getD m 0 = xs.getD m 0 := by
  simp [List.getElem?_set_ne h]

theorem pyGet_ok_getD {xs : List ℕ} {n : ℕ} (h : n < xs.length) :
    pyGet xs n = .ok (xs.getD n 0) := by
  unfold pyGet
  rw [List.get?_eq_getElem?, List.getElem?_eq_getElem h, List.getD_eq_getElem _ _ h]

theorem pyGet_ok_elim {α : Type} {xs : List α} {n : ℕ} {a : α}
    (h : pyGet xs n = .ok a) : n < xs.length ∧ xs.get? n = some a := by
  unfold pyGet at h
  split at h
  · rename_i x hx
    injection h with h'
    subst h'
    refine ⟨?_, hx⟩
    by_contra hn
    rw [List.get?_eq_none.mpr (Nat.le_of_not_lt hn)] at hx
    cases hx
  · exact Except.noConfusion h

theorem pyGet_ok_elim' {xs : List ℕ} {n a : ℕ} (h : pyGet xs n = .ok a) :
    n < xs.length ∧ xs.getD n 0 = a := by
  obtain ⟨hlt, hx⟩ := pyGet_ok_elim h
  refine ⟨hlt, ?_⟩
  rw [List.getD_eq_getD_get? xs 0 n, hx, Option.getD_some]

theorem pyListRemove_append {heap : List Cluster} {l1 : List ℕ} {t : ℕ}
    (h1 : ∀ z ∈ l1, heapVal heap z ≠ heapVal heap t) (l2 : List ℕ) :
    pyListRemove heap (l1 ++ t :: l2) t = .ok (l1 ++ l2) := by
  induction l1 with
  | nil => simp [pyListRemove_cons]
  | cons y ys ih =>
      rw [List.cons_append, pyListRemove_cons, if_neg (h1 y (List.mem_cons_self y ys)),
        ih (fun z hz => h1 z (List.mem_cons_of_mem y hz)), okMap, List.cons_append]

theorem nodup_of_goodClusters {heap : List Cluster} {ids : List ℕ} {U : Finset ℕ}
    (h : GoodClusters (ids.map (heapVal heap)) U) : ids.Nodup := by
  obtain ⟨hdisj, hne, -, -⟩ := h
  rw [List.pairwise_map] at hdisj
  refine hdisj.imp_of_mem ?_
  intro a b ha _ hab haeq
  subst haeq
  exact hne _ (List.mem_map_of_mem _ ha) (by simpa using hab)

theorem mem_split_nodup {ids : List ℕ} {oid : ℕ} (hmem : oid ∈ ids) (hnd : ids.Nodup) :
    ∃ l1 l2, ids = l1 ++ oid :: l2 ∧ oid ∉ l1 ∧ oid ∉ l2 := by
  obtain ⟨l1, l2, rfl⟩ := List.append_of_mem hmem
  rw [List.nodup_append] at hnd
  obtain ⟨_, h2, hdisj⟩ := hnd
  rw [List.nodup_cons] at h2
  exact ⟨l1, l2, rfl, fun hin => hdisj hin (List.mem_cons_self _ _), h2.1⟩

/-! ## Surgery lemmas for partitions represented as lists of clusters -/

theorem GoodClusters.append_singleton {cs : List Cluster} {U : Finset ℕ} {v : ℕ}
    (h : GoodClusters cs U) (hv : v ∉ U) : GoodClusters (cs ++ [{v}]) (insert v U) := by
  obtain ⟨hdisj, hne, hbound, hcover⟩ := h
  refine ⟨?_, ?_, ?_, ?_⟩
  · rw [List.pairwise_append]
    refine ⟨hdisj, List.pairwise_singleton _ _, ?_⟩
    intro A hA B hB
    rw [List.mem_singleton] at hB
    subst hB
    ext x
    simp only [Finset.mem_inter, Finset.mem_singleton, Finset.not_mem_empty, iff_false, not_and]
    rintro hxA rfl
    exact hv (hbound A hA x hxA)
  · intro C hC
    rcases List.mem_append.mp hC with h1 | h2
    · exact hne C h1
    · rw [List.mem_singleton] at h2
      subst h2
      exact Finset.singleton_ne_empty v
  · intro C hC x hx
    rcases List.mem_append.mp hC with h1 | h2
    · exact Finset.mem_insert_of_mem (hbound C h1 x hx)
    · rw [List.mem_singleton] at h2
      subst h2
      rw [Finset.mem_singleton] at hx
      subst hx
      exact Finset.mem_insert_self x U
  · intro x hx
    rcases Finset.mem_insert.mp hx with rfl | hxU
    · exact ⟨{x}, List.mem_append_right _ (List.mem_singleton_self _),
        Finset.mem_singleton_self x⟩
    · obtain ⟨C, hC, hxC⟩ := hcover x hxU
      exact ⟨C, List.mem_append_left _ hC, hxC⟩

theorem GoodClusters.insert_middle {l1 l2 : List Cluster} {C : Cluster} {U : Finset ℕ}
    {v : ℕ} (h : GoodClusters (l1 ++ C :: l2) U) (hv : v ∉ U) :
    GoodClusters (l1 ++ insert v C :: l2) (insert v U) := by
  obtain ⟨hdisj, hne, hbound, hcover⟩ := h
  rw [List.pairwise_append, List.pairwise_cons] at hdisj
  obtain ⟨hp1, ⟨hCl2, hp2⟩, hcross⟩ := hdisj
  have hvnot : ∀ D ∈ l1 ++ C :: l2, v ∉ D := fun D hD hvD => hv (hbound D hD v hvD)
  refine ⟨?_, ?_, ?_, ?_⟩
  · rw [List.pairwise_append, List.pairwise_cons]
    refine ⟨hp1, ⟨?_, hp2⟩, ?_⟩
    · intro B hB
      rw [Finset.insert_inter_of_not_mem
        (hvnot B (List.mem_append_right _ (List.mem_cons_of_mem _ hB)))]
      exact hCl2 B hB
    · intro A hA B hB
      rcases List.mem_cons.mp hB with rfl | hB2
      · rw [Finset.inter_insert_of_not_mem (hvnot A (List.mem_append_left _ hA))]
        exact hcross A hA C (List.mem_cons_self _ _)
      · exact hcross A hA B (List.mem_cons_of_mem _ hB2)
  · intro D hD
    rcases List.mem_append.mp hD with h1 | h2
    · exact hne D (List.mem_append_left _ h1)
    · rcases List.mem_cons.mp h2 with rfl | h3
      · exact Finset.insert_ne_empty v C
      · exact hne D (List.mem_append_right _ (List.mem_cons_of_mem _ h3))
  · intro D hD x hx
    rcases List.mem_append.mp hD with h1 | h2
    · exact Finset.mem_insert_of_mem (hbound D (List.mem_append_left _ h1) x hx)
    · rcases List.mem_cons.mp h2 with rfl | h3
      · rcases Finset.mem_insert.mp hx with rfl | hxC
        · exact Finset.mem_insert_self x U
        · exact Finset.mem_insert_of_mem
            (hbound C (List.mem_append_right _ (List.mem_cons_self _ _)) x hxC)
      · exact Finset.mem_insert_of_mem
          (hbound D (List.mem_append_right _ (List.mem_cons_of_mem _ h3)) x hx)
  · intro x hx
    rcases Finset.mem_insert.mp hx with rfl | hxU
    · exact ⟨insert x C, List.mem_append_right _ (List.mem_cons_self _ _),
        Finset.mem_insert_self x C⟩
    · obtain ⟨D, hD, hxD⟩ := hcover x hxU
      rcases List.mem_append.mp hD with h1 | h2
      · exact ⟨D, List.mem_append_left _ h1, hxD⟩
      · rcases List.mem_cons.mp h2 with rfl | h3
        · exact ⟨insert v D, List.mem_append_right _ (List.mem_cons_self _ _),
            Finset.mem_insert_of_mem hxD⟩
        · exact ⟨D, List.mem_append_right _ (List.mem_cons_of_mem _ h3), hxD⟩

theorem GoodClusters.remove_singleton {l1 l2 : List Cluster} {U : Finset ℕ} {v : ℕ}
    (h : GoodClusters (l1 ++ {v} :: l2) U) :
    GoodClusters (l1 ++ l2) (U.erase v) := by
  obtain ⟨hdisj, hne, hbound, hcover⟩ := h
  have hsub : (l1 ++ l2).Sublist (l1 ++ {v} :: l2) :=
    (List.sublist_cons_self {v} l2).append_left l1
  have hdisj2 := hdisj.sublist hsub
  rw [List.pairwise_append, List.pairwise_cons] at hdisj
  obtain ⟨-, ⟨hCl2, -⟩, hcross⟩ := hdisj
  have hvnot : ∀ D ∈ l1 ++ l2, v ∉ D := by
    intro D hD hvD
    rcases List.mem_append.mp hD with h1 | h2
    · have hmem : v ∈ D ∩ {v} := Finset.mem_inter.mpr ⟨hvD, Finset.mem_singleton_self v⟩
      rw [hcross D h1 {v} (List.mem_cons_self _ _)] at hmem
      exact Finset.not_mem_empty v hmem
    · have hmem : v ∈ ({v} : Cluster) ∩ D :=
        Finset.mem_inter.mpr ⟨Finset.mem_singleton_self v, hvD⟩
      rw [hCl2 D h2] at hmem
      exact Finset.not_mem_empty v hmem
  refine ⟨hdisj2, fun D hD => hne D (hsub.subset hD), ?_, ?_⟩
  · intro D hD x hx
    exact Finset.mem_erase.mpr ⟨fun he => hvnot D hD (he ▸ hx), hbound D (hsub.subset hD) x hx⟩
  · intro x hx
    obtain ⟨hxv, hxU⟩ := Finset.mem_erase.mp hx
    obtain ⟨D, hD, hxD⟩ := hcover x hxU
    rcases List.mem_append.mp hD with h1 | h2
    · exact ⟨D, List.mem_append_left _ h1, hxD⟩
    · rcases List.mem_cons.mp h2 with rfl | h3
      · exact absurd (Finset.mem_singleton.mp hxD) hxv
      · exact ⟨D, List.mem_append_right _ h3, hxD⟩

theorem GoodClusters.erase_middle {l1 l2 : List Cluster} {C : Cluster} {U : Finset ℕ}
    {v : ℕ} (h : GoodClusters (l1 ++ C :: l2) U) (hvC : v ∈ C) (hner : C.erase v ≠ ∅) :
    GoodClusters (l1 ++ C.erase v :: l2) (U.erase v) := by
  obtain ⟨hdisj, hne, hbound, hcover⟩ := h
  rw [List.pairwise_append, List.pairwise_cons] at hdisj
  obtain ⟨hp1, ⟨hCl2, hp2⟩, hcross⟩ := hdisj
  have hvnot : ∀ D, D ∈ l1 ∨ D ∈ l2 → v ∉ D := by
    intro D hD hvD
    rcases hD with h1 | h2
    · have hmem : v ∈ D ∩ C := Finset.mem_inter.mpr ⟨hvD, hvC⟩
      rw [hcross D h1 C (List.mem_cons_self _ _)] at hmem
      exact Finset.not_mem_empty v hmem
    · have hmem : v ∈ C ∩ D := Finset.mem_inter.mpr ⟨hvC, hvD⟩
      rw [hCl2 D h2] at hmem
      exact Finset.not_mem_empty v hmem
  have hshrinkL : ∀ A B : Cluster, A ∩ B = ∅ → A.erase v ∩ B = ∅ := by
    intro A B hAB
    apply Finset.subset_empty.mp
    rw [← hAB]
    exact Finset.inter_subset_inter (Finset.erase_subset v A) (Finset.Subset.refl B)
  have hshrinkR : ∀ A B : Cluster, A ∩ B = ∅ → A ∩ B.erase v = ∅ := by
    intro A B hAB
    apply Finset.subset_empty.mp
    rw [← hAB]
    exact Finset.inter_subset_inter (Finset.Subset.refl A) (Finset.erase_subset v B)
  refine ⟨?_, ?_, ?_, ?_⟩
  · rw [List.pairwise_append, List.pairwise_cons]
    refine ⟨hp1, ⟨fun B hB => hshrinkL C B (hCl2 B hB), hp2⟩, ?_⟩
    intro A hA B hB
    rcases List.mem_cons.mp hB with rfl | hB2
    · exact hshrinkR A C (hcross A hA C (List.mem_cons_self _ _))
    · exact hcross A hA B (List.mem_cons_of_mem _ hB2)
  · intro D hD
    rcases List.mem_append.mp hD with h1 | h2
    · exact hne D (List.mem_append_left _ h1)
    · rcases List.mem_cons.mp h2 with rfl | h3
      · exact hner
      · exact hne D (List.mem_append_right _ (List.mem_cons_of_mem _ h3))
  · intro D hD x hx
    rcases List.mem_append.mp hD with h1 | h2
    · exact Finset.mem_erase.mpr ⟨fun he => hvnot D (Or.inl h1) (he ▸ hx),
        hbound D (List.mem_append_left _ h1) x hx⟩
    · rcases List.mem_cons.mp h2 with rfl | h3
      · obtain ⟨hxv, hxC⟩ := Finset.mem_erase.mp hx
        exact Finset.mem_erase.mpr ⟨hxv,
          hbound C (List.mem_append_right _ (List.mem_cons_self _ _)) x hxC⟩
      · exact Finset.mem_erase.mpr ⟨fun he => hvnot D (Or.inr h3) (he ▸ hx),
          hbound D (List.mem_append_right _ (List.mem_cons_of_mem _ h3)) x hx⟩
  · intro x hx
    obtain ⟨hxv, hxU⟩ := Finset.mem_erase.mp hx
    obtain ⟨D, hD, hxD⟩ := hcover x hxU
    rcases List.mem_append.mp hD with h1 | h2
    · exact ⟨D, List.mem_append_left _ h1, hxD⟩
    · rcases List.mem_cons.mp h2 with rfl | h3
      · exact ⟨D.erase v, List.mem_append_right _ (List.mem_cons_self _ _),
          Finset.mem_erase.mpr ⟨hxv, hxD⟩⟩
      · exact ⟨D, List.mem_append_right _ (List.mem_cons_of_mem _ h3), hxD⟩

/-! ## The remove and reassign phases preserve the invariant -/

/-- Removing item `i` (the `cluster_assn[i].remove(i)` mutation followed by
the conditional `clustering.remove(cluster_assn[i])`) turns a partition of
`{0, …, N-1}` into a partition of `{0, …, N-1} \ {i}` and keeps every other
item's reference coherent. -/
theorem removePhase {heap : List Cluster} {clustering assn : List ℕ} {N i oid : ℕ}
    (hi : i < N)
    (hGood : GoodClusters (clustering.map (heapVal heap)) (Finset.range N))
    (hAssn : ∀ j, j < N → assn.getD j 0 ∈ clustering ∧ j ∈ heapVal heap (assn.getD j 0))
    (hoid : assn.getD i 0 = oid)
    {clustering1 : List ℕ}
    (hrem : (if heapVal (heap.set oid ((heapVal heap oid).erase i)) oid = ∅
        then pyListRemove (heap.set oid ((heapVal heap oid).erase i)) clustering oid
        else .ok clustering) = .ok clustering1) :
    GoodClusters (clustering1.map (heapVal (heap.set oid ((heapVal heap oid).erase i))))
      ((Finset.range N).erase i) ∧
    (∀ j, j < N → j ≠ i → assn.getD j 0 ∈ clustering1 ∧
      j ∈ heapVal (heap.set oid ((heapVal heap oid).erase i)) (assn.getD j 0)) := by
  obtain ⟨hoidmem0, hoidi0⟩ := hAssn i hi
  rw [hoid] at hoidmem0 hoidi0
  have hSne : heapVal heap oid ≠ ∅ := fun h0 => Finset.not_mem_empty i (h0 ▸ hoidi0)
  have holt : oid < heap.length := heapVal_lt_of_ne_empty hSne
  have hv1 : heapVal (heap.set oid ((heapVal heap oid).erase i)) oid =
      (heapVal heap oid).erase i := heapVal_set_self _ holt
  obtain ⟨l1, l2, hsplit, hn1, hn2⟩ := mem_split_nodup hoidmem0 (nodup_of_goodClusters hGood)
  have hmap1 : l1.map (heapVal (heap.set oid ((heapVal heap oid).erase i))) =
      l1.map (heapVal heap) := map_heapVal_set_of_not_mem hn1
  have hmap2 : l2.map (heapVal (heap.set oid ((heapVal heap oid).erase i))) =
      l2.map (heapVal heap) := map_heapVal_set_of_not_mem hn2
  have hGoodSplit : GoodClusters
      (l1.map (heapVal heap) ++ heapVal heap oid :: l2.map (heapVal heap))
      (Finset.range N) := by
    have h2 := hGood
    rw [hsplit, List.map_append, List.map_cons] at h2
    exact h2
  by_cases hemp : heapVal (heap.set oid ((heapVal heap oid).erase i)) oid = ∅
  · rw [if_pos hemp] at hrem
    have hS_eq : heapVal heap oid = {i} := by
      rcases (Finset.erase_eq_empty_iff _ _).mp (by rw [← hv1]; exact hemp) with h0 | h1
      · exact absurd h0 hSne
      · exact h1
    have hvalsne : ∀ z ∈ l1,
        heapVal (heap.set oid ((heapVal heap oid).erase i)) z ≠
        heapVal (heap.set oid ((heapVal heap oid).erase i)) oid := by
      intro z hz
      have hzne : oid ≠ z := fun he => hn1 (by rw [he]; exact hz)
      rw [heapVal_set_ne _ hzne, hemp]
      exact hGood.2.1 _ (List.mem_map_of_mem _
        (by rw [hsplit]; exact List.mem_append_left _ hz))
    have hremcomp : pyListRemove (heap.set oid ((heapVal heap oid).erase i)) clustering oid
        = .ok (l1 ++ l2) := by
      rw [hsplit]
      exact pyListRemove_append hvalsne l2
    rw [hremcomp] at hrem
    injection hrem with hclus
    subst hclus
    constructor
    · rw [List.map_append, hmap1, hmap2]
      apply GoodClusters.remove_singleton
      rw [← hS_eq]
      exact hGoodSplit
    · intro j hj hji
      obtain ⟨hjm, hjv⟩ := hAssn j hj
      have hjoid : assn.getD j 0 ≠ oid := by
        intro he
        apply hji
        have hjS : j ∈ heapVal heap oid := he ▸ hjv
        rw [hS_eq] at hjS
        exact Finset.mem_singleton.mp hjS
      constructor
      · have hjm2 : assn.getD j 0 ∈ l1 ++ oid :: l2 := by rw [← hsplit]; exact hjm
        rcases List.mem_append.mp hjm2 with h1 | h2
        · exact List.mem_append_left _ h1
        · rcases List.mem_cons.mp h2 with he | h3
          · exact absurd he hjoid
          · exact List.mem_append_right _ h3
      · rw [heapVal_set_ne _ (Ne.symm hjoid)]
        exact hjv
  · rw [if_neg hemp] at hrem
    injection hrem with hclus
    subst hclus
    have hner : (heapVal heap oid).erase i ≠ ∅ := by rw [← hv1]; exact hemp
    constructor
    · rw [hsplit, List.map_append, List.map_cons, hmap1, hmap2, hv1]
      exact GoodClusters.erase_middle hGoodSplit hoidi0 hner
    · intro j hj hji
      obtain ⟨hjm, hjv⟩ := hAssn j hj
      refine ⟨hjm, ?_⟩
      by_cases hjoid : assn.getD j 0 = oid
      · rw [hjoid, hv1]
        exact Finset.mem_erase.mpr ⟨hji, hjoid ▸ hjv⟩
      · rw [heapVal_set_ne _ (Ne.symm hjoid)]
        exact hjv

/-- Reassigning item `i` to a freshly created singleton cluster restores the
full invariant from the mid-step state. -/
theorem invAssemble_new {heap1 : List Cluster} {clustering1 assn2 : List ℕ} {N i : ℕ}
    (hi : i < N) (hlen2 : assn2.length = N)
    (hMid : GoodClusters (clustering1.map (heapVal heap1)) ((Finset.range N).erase i))
    (hgetI : assn2.getD i 0 = heap1.length)
    (hgetO : ∀ j, j < N → j ≠ i →
      assn2.getD j 0 ∈ clustering1 ∧ j ∈ heapVal heap1 (assn2.getD j 0))
    (ds : List ℕ) :
    Inv ⟨heap1 ++ [{i}], clustering1 ++ [heap1.length], assn2, ds⟩ N := by
  have hlt : ∀ z ∈ clustering1, z < heap1.length := fun z hz =>
    heapVal_lt_of_ne_empty (hMid.2.1 _ (List.mem_map_of_mem _ hz))
  have hinsert : insert i ((Finset.range N).erase i) = Finset.range N :=
    Finset.insert_erase (Finset.mem_range.mpr hi)
  refine ⟨hlen2, ?_, ?_⟩
  · show GoodClusters ((clustering1 ++ [heap1.length]).map (heapVal (heap1 ++ [{i}])))
      (Finset.range N)
    rw [List.map_append, map_heapVal_append hlt]
    have hmapone : [heap1.length].map (heapVal (heap1 ++ [{i}])) = [({i} : Cluster)] := by
      simp [heapVal_append_self]
    rw [hmapone, ← hinsert]
    exact hMid.append_singleton (Finset.not_mem_erase i _)
  · intro j hj
    show assn2.getD j 0 ∈ clustering1 ++ [heap1.length] ∧
      j ∈ heapVal (heap1 ++ [{i}]) (assn2.getD j 0)
    by_cases hji : j = i
    · subst hji
      rw [hgetI, heapVal_append_self]
      exact ⟨List.mem_append_right _ (List.mem_singleton_self _), Finset.mem_singleton_self j⟩
    · obtain ⟨hm, hv⟩ := hgetO j hj hji
      rw [heapVal_append_lt _ (hlt _ hm)]
      exact ⟨List.mem_append_left _ hm, hv⟩

/-- Reassigning item `i` into the existing cluster object `coid` (Python's
`clustering[cluster].add(i)`) restores the full invariant from the
mid-step state. -/
theorem invAssemble_existing {heap1 : List Cluster} {clustering1 assn2 : List ℕ}
    {N i coid : ℕ} (hi : i < N) (hlen2 : assn2.length = N)
    (hMid : GoodClusters (clustering1.map (heapVal heap1)) ((Finset.range N).erase i))
    (hmemc : coid ∈ clustering1)
    (hgetI : assn2.getD i 0 = coid)
    (hgetO : ∀ j, j < N → j ≠ i →
      assn2.getD j 0 ∈ clustering1 ∧ j ∈ heapVal heap1 (assn2.getD j 0))
    (ds : List ℕ) :
    Inv ⟨heap1.set coid (insert i (heapVal heap1 coid)), clustering1, assn2, ds⟩ N := by
  have hck : coid < heap1.length :=
    heapVal_lt_of_ne_empty (hMid.2.1 _ (List.mem_map_of_mem _ hmemc))
  have hsetself : heapVal (heap1.set coid (insert i (heapVal heap1 coid))) coid =
      insert i (heapVal heap1 coid) := heapVal_set_self _ hck
  have hinsert : insert i ((Finset.range N).erase i) = Finset.range N :=
    Finset.insert_erase (Finset.mem_range.mpr hi)
  obtain ⟨t1, t2, hsplit, hn1, hn2⟩ := mem_split_nodup hmemc (nodup_of_goodClusters hMid)
  refine ⟨hlen2, ?_, ?_⟩
  · show GoodClusters
      (clustering1.map (heapVal (heap1.set coid (insert i (heapVal heap1 coid)))))
      (Finset.range N)
    have hM2 := hMid
    rw [hsplit, List.map_append, List.map_cons] at hM2
    have hmapsplit :
        clustering1.map (heapVal (heap1.set coid (insert i (heapVal heap1 coid)))) =
        t1.map (heapVal heap1) ++
          insert i (heapVal heap1 coid) :: t2.map (heapVal heap1) := by
      conv_lhs => rw [hsplit]
      rw [List.map_append, List.map_cons, hsetself,
        map_heapVal_set_of_not_mem hn1, map_heapVal_set_of_not_mem hn2]
    rw [hmapsplit, ← hinsert]
    exact hM2.insert_middle (Finset.not_mem_erase i _)
  · intro j hj
    show assn2.getD j 0 ∈ clustering1 ∧
      j ∈ heapVal (heap1.set coid (insert i (heapVal heap1 coid))) (assn2.getD j 0)
    by_cases hji : j = i
    · subst hji
      rw [hgetI, hsetself]
      exact ⟨hmemc, Finset.mem_insert_self _ _⟩
    · obtain ⟨hm, hv⟩ := hgetO j hj hji
      refine ⟨hm, ?_⟩
      by_cases hoj : assn2.getD j 0 = coid
      · rw [hoj, hsetself]
        exact Finset.mem_insert_of_mem (hoj ▸ hv)
      · rw [heapVal_set_ne _ (fun he => hoj he.symm)]
        exact hv

/-! ## Step-level and run-level invariant preservation -/

/-- One `initialize_assn` loop iteration for item `i` preserves the
invariant, extending the universe from `{0, …, i-1}` to `{0, …, i}`. -/
theorem initStep_inv {lik : Lik} {us : RngStream} {alpha : ℚ} {s : St} {i : ℕ} {s' : St}
    (hInv : Inv s i) (h : initStep lik us alpha s i = .ok s') : Inv s' (i + 1) := by
  obtain ⟨hlen, hGood, hAssn⟩ := hInv
  have hGood' : GoodClusters (s.clustering.map (heapVal s.heap))
      ((Finset.range (i + 1)).erase i) := by
    rw [Finset.range_succ, Finset.erase_insert Finset.not_mem_range_self]
    exact hGood
  have hOther : ∀ j, j < i + 1 → j ≠ i →
      s.cluster_assn.getD j 0 ∈ s.clustering ∧
      j ∈ heapVal s.heap (s.cluster_assn.getD j 0) := by
    intro j hj hji
    exact hAssn j (by omega)
  have hi : i < i + 1 := Nat.lt_succ_self i
  unfold initStep at h
  dsimp only [] at h
  split at h
  · exact Except.noConfusion h
  · split at h
    · exact Except.noConfusion h
    · rename_i c heqc
      split_ifs at h with hcnew
      · injection h with h'
        subst h'
        exact invAssemble_new hi (by simpa using hlen) hGood'
          (by
            rw [List.getD_append_right s.cluster_assn _ 0 i (Nat.le_of_eq hlen), hlen]
            simp)
          (fun j hj hji => by
            rw [List.getD_append s.cluster_assn _ 0 j (by omega)]
            exact hOther j hj hji) _
      · split at h
        · exact Except.noConfusion h
        · rename_i coid heqg
          injection h with h'
          subst h'
          obtain ⟨hclt, hcoid⟩ := pyGet_ok_elim' heqg
          have hmemc : coid ∈ s.clustering := by rw [← hcoid]; exact getD_mem hclt
          exact invAssemble_existing hi (by simpa using hlen) hGood' hmemc
            (by
              rw [List.getD_append_right s.cluster_assn _ 0 i (Nat.le_of_eq hlen), hlen]
              simp)
            (fun j hj hji => by
              rw [List.getD_append s.cluster_assn _ 0 j (by omega)]
              exact hOther j hj hji) _

/-- One Gibbs resampling step for item `i` (remove, propose, sample,
reassign) preserves the invariant. -/
theorem sweepStep_inv {lik : Lik} {us : RngStream} {N : ℕ} {alpha : ℚ} {sn : St × ℕ}
    {i : ℕ} {res : St × ℕ} (hi : i < N) (hInv : Inv sn.1 N)
    (h : sweepStep lik us N alpha sn i = .ok res) : Inv res.1 N := by
  obtain ⟨hlen, hGood, hAssn⟩ := hInv
  have hGood' : GoodClusters (sn.1.clustering.map (heapVal sn.1.heap)) (Finset.range N) :=
    hGood
  unfold sweepStep at h
  dsimp only [] at h
  split at h
  · exact Except.noConfusion h
  · rename_i oid heqget
    obtain ⟨-, hoidval⟩ := pyGet_ok_elim' heqget
    have hoidi : i ∈ heapVal sn.1.heap oid := by
      rw [← hoidval]
      exact (hAssn i hi).2
    rw [if_pos hoidi] at h
    split at h
    · exact Except.noConfusion h
    · rename_i clustering1 hrem
      obtain ⟨hMid, hOther⟩ :=
        removePhase hi hGood' (fun j hj => hAssn j hj) hoidval hrem
      split at h
      · exact Except.noConfusion h
      · split at h
        · exact Except.noConfusion h
        · rename_i c heqc
          split_ifs at h with hcnew
          · injection h with h'
            subst h'
            exact invAssemble_new hi (by simpa using hlen) hMid
              (getD_set_self (by rw [hlen]; exact hi))
              (fun j hj hji => by
                rw [getD_set_ne (Ne.symm hji)]
                exact hOther j hj hji) _
          · split at h
            · exact Except.noConfusion h
            · rename_i coid heqg
              injection h with h'
              subst h'
              obtain ⟨hclt, hcoid⟩ := pyGet_ok_elim' heqg
              have hmemc : coid ∈ clustering1 := by rw [← hcoid]; exact getD_mem hclt
              exact invAssemble_existing hi (by simpa using hlen) hMid hmemc
                (getD_set_self (by rw [hlen]; exact hi))
                (fun j hj hji => by
                  rw [getD_set_ne (Ne.symm hji)]
                  exact hOther j hj hji) _

/-- A full Gibbs sweep preserves the invariant. -/
theorem sweep_inv {lik : Lik} {us : RngStream} {alpha : ℚ} {N : ℕ} {s : St}
    {p : St × ℕ} (hInv : Inv s N) (h : sweep lik us alpha N s = .ok p) : Inv p.1 N :=
  foldlM_range_invariant (sweepStep lik us N alpha) (fun _ q => Inv q.1 N) N
    (fun _ hk _ _ hP hs => sweepStep_inv hk hP hs) N (Nat.le_refl N) (s, 0) p hInv h

/-- A sweep followed by the Empirical Bayes adjustment preserves the
invariant (the adjustment only touches `alpha`). -/
theorem sweepEB_inv {lik : Lik} {us : RngStream} {ebs ebi N t : ℕ} {sa sa' : St × ℚ}
    (hInv : Inv sa.1 N) (h : sweepEB lik us ebs ebi N t sa = .ok sa') : Inv sa'.1 N := by
  unfold sweepEB at h
  split at h
  · exact Except.noConfusion h
  · rename_i s1 numNew heq
    injection h with h'
    subst h'
    exact sweep_inv hInv heq

/-- `initialize_assn` establishes the invariant. -/
theorem initialize_assn_inv {lik : Lik} {us : RngStream} {alpha : ℚ} {N : ℕ} {s : St}
    (h : initialize_assn lik us alpha N = .ok s) : Inv s N := by
  have h0 : Inv ⟨[], [], [], []⟩ 0 := by
    refine ⟨rfl, ⟨?_, ?_, ?_, ?_⟩, ?_⟩ <;> simp [clusterVals]
  exact foldlM_range_invariant (initStep lik us alpha) (fun k st => Inv st k) N
    (fun k _ st st' hP hs => initStep_inv hP hs) N (Nat.le_refl N) _ s h0 h

/-- Initialization followed by any number of sweeps leaves the state
satisfying the invariant. -/
theorem runPrefix_inv {m : CRPClusterModel} {lik : Lik} {us : RngStream} {N t : ℕ}
    {s : St} {a : ℚ} (h : runPrefix m lik us N t = .ok (s, a)) : Inv s N := by
  unfold runPrefix at h
  split at h
  · exact Except.noConfusion h
  · rename_i s0 heq0
    exact foldlM_range_invariant
      (fun sa t' => sweepEB lik us m.eb_start m.eb_interval N t' sa)
      (fun _ sa => Inv sa.1 N) t (fun k _ sa sa' hP hs => sweepEB_inv hP hs)
      t (Nat.le_refl t) (s0, m.alpha) (s, a) (initialize_assn_inv heq0) h

/-! ## Behaviour of a sweep followed by the Empirical Bayes update on an
empty dataset -/

theorem emptySweepEB (lik : Lik) (us : RngStream) (ebs ebi t : ℕ) (a : ℚ) :
    sweepEB lik us ebs ebi 0 t (⟨[], [], [], []⟩, a) =
      .ok (⟨[], [], [], []⟩, if t % ebi = 0 ∧ ebs < t then 0 else a) := by
  with_unfolding_all rfl

theorem emptyFold (lik : Lik) (us : RngStream) (ebs ebi : ℕ) (a : ℚ) :
    ∀ k, (List.range k).foldlM (fun sa t' => sweepEB lik us ebs ebi 0 t' sa)
        ((⟨[], [], [], []⟩ : St), a) =
      .ok (⟨[], [], [], []⟩,
        if ∃ t ∈ Finset.range k, t % ebi = 0 ∧ ebs < t then 0 else a) := by
  intro k
  induction k with
  | zero => simp [pure, Except.pure]
  | succ n ih =>
      rw [foldlM_range_succ, ih, okBind, emptySweepEB]
      by_cases hn : n % ebi = 0 ∧ ebs < n
      · rw [if_pos hn, if_pos]
        exact ⟨n, Finset.mem_range.mpr (Nat.lt_succ_self n), hn⟩
      · rw [if_neg hn]
        have hiff : (∃ t ∈ Finset.range (n + 1), t % ebi = 0 ∧ ebs < t) ↔
            (∃ t ∈ Finset.range n, t % ebi = 0 ∧ ebs < t) := by
          constructor
          · rintro ⟨t, htm, htf⟩
            rcases Nat.lt_succ_iff_lt_or_eq.mp (Finset.mem_range.mp htm) with hlt | heq
            · exact ⟨t, Finset.mem_range.mpr hlt, htf⟩
            · exact absurd (heq ▸ htf) hn
          · rintro ⟨t, htm, htf⟩
            exact ⟨t, Finset.mem_range.mpr (Nat.lt_succ_of_lt (Finset.mem_range.mp htm)), htf⟩
        rw [if_congr hiff rfl rfl]

/-! ## The claims -/

/-- **C1** (confirmed).  The CRP prior vector built by the source has length
`k + 1` where `k` is the current number of clusters; entry `j` (an existing
cluster) is `size(cluster_j) / (n + α)` and the final entry is
`α / (n + α)`.  The theorem holds for every denominator context `n`; the
embedded `initStep` instantiates it with `n = i` (the count of items
already assigned during initialization) and the embedded `sweepStep` with
`n = N - 1` (see their definitions, which call `crp_prior` with exactly
those arguments, mirroring source lines 69-71 and 96-98). -/
theorem C1_crp_prior_vector (heap : List Cluster) (clustering : List ℕ) (n alpha : ℚ) :
    (crp_prior heap clustering n alpha).length = clustering.length + 1 ∧
    (∀ j, j < clustering.length →
      (crp_prior heap clustering n alpha).getD j 0 =
        ((heapVal heap (clustering.getD j 0)).card : ℚ) / (n + alpha)) ∧
    (crp_prior heap clustering n alpha).getD clustering.length 0 = alpha / (n + alpha) := by
  refine ⟨by simp [crp_prior], ?_, ?_⟩
  · intro j hj
    have hj' : j < (clustering.map
        (fun oid => ((heapVal heap oid).card : ℚ) / (n + alpha))).length := by
      simpa using hj
    rw [crp_prior, List.getD_append _ _ _ _ hj', List.getD_eq_getElem _ _ hj',
      List.getElem_map, ← List.getD_eq_getElem _ _ hj]
  · rw [crp_prior, List.getD_append_right]
    · simp
    · simp

/-- Witness for C1 at a concrete partition: two clusters of sizes 1 and 2,
`n = 3`, `α = 2`; the entry for cluster 1 is `2 / (3 + 2) = 2/5`. -/
theorem C1_crp_prior_vector_witness :
    (crp_prior [{0}, {1, 2}] [0, 1] 3 2).getD 1 0 = 2 / 5 := by
  rw [(C1_crp_prior_vector [{0}, {1, 2}] [0, 1] 3 2).2.1 1 (by decide)]
  with_unfolding_all decide

/-- **C2** (confirmed).  After initialization completes (`t = 0`: `runPrefix`
then runs only `initialize_assn`) and after every completed Gibbs sweep
(`t` sweeps; `fit` itself is `runPrefix` at `t = num_iter`, by definition),
the clusters are pairwise disjoint, none is empty, and their union is
exactly `{0, …, N-1}`: every item lies in some cluster and every cluster
member is an item index — together with disjointness, each item appears in
exactly one cluster. -/
theorem C2_partition_invariant (m : CRPClusterModel) (lik : Lik) (us : RngStream)
    (N t : ℕ) (s : St) (a : ℚ) (h : runPrefix m lik us N t = .ok (s, a)) :
    (clusterVals s).Pairwise (fun A B => A ∩ B = ∅) ∧
    (∀ C ∈ clusterVals s, C ≠ ∅) ∧
    (∀ x, x < N ↔ ∃ C ∈ clusterVals s, x ∈ C) := by
  obtain ⟨-, ⟨hdisj, hne, hbound, hcover⟩, -⟩ := runPrefix_inv h
  refine ⟨hdisj, hne, ?_⟩
  intro x
  constructor
  · intro hx
    exact hcover x (Finset.mem_range.mpr hx)
  · rintro ⟨C, hC, hxC⟩
    exact Finset.mem_range.mp (hbound C hC x hxC)

/-- Witness for C2: a two-item run (initialization plus one sweep) ending in
the two singleton clusters `{0}` and `{1}`. -/
theorem C2_partition_invariant_witness :
    ((clusterVals ⟨[∅, ∅, {0}, {1}], [2, 3], [2, 3], [0, 1, 1, 1]⟩).Pairwise
      (fun A B => A ∩ B = ∅)) ∧
    (∀ C ∈ clusterVals ⟨[∅, ∅, {0}, {1}], [2, 3], [2, 3], [0, 1, 1, 1]⟩, C ≠ ∅) ∧
    (∀ x, x < 2 ↔
      ∃ C ∈ clusterVals ⟨[∅, ∅, {0}, {1}], [2, 3], [2, 3], [0, 1, 1, 1]⟩, x ∈ C) :=
  C2_partition_invariant ⟨1, 5, 20, 5⟩ likOne usHalf 2 1
    ⟨[∅, ∅, {0}, {1}], [2, 3], [2, 3], [0, 1, 1, 1]⟩ 1 (by with_unfolding_all decide)

/-- **C5** (confirmed).  After any completed reassignment step — a
`sweepStep` during a sweep or an `initStep` during initialization, started
from a state satisfying the invariant — every assigned item `j` has a
coherent reference: `cluster_assn[j]` is a set object present in the
`clustering` list (by object identity in the heap embedding) and contains
`j`; in particular this holds for the item just reassigned, and no
reference is ever stale or removed. -/
theorem C5_reference_coherence (lik : Lik) (us : RngStream) (alpha : ℚ) :
    (∀ (N i : ℕ) (sn res : St × ℕ), i < N → Inv sn.1 N →
      sweepStep lik us N alpha sn i = .ok res →
      ∀ j, j < N → assnOk res.1.heap res.1.clustering res.1.cluster_assn j) ∧
    (∀ (i : ℕ) (s s' : St), Inv s i → initStep lik us alpha s i = .ok s' →
      ∀ j, j < i + 1 → assnOk s'.heap s'.clustering s'.cluster_assn j) := by
  constructor
  · intro N i sn res hi hInv h j hj
    exact (sweepStep_inv hi hInv h).2.2 j hj
  · intro i s s' hInv h j hj
    exact (initStep_inv hInv h).2.2 j hj

/-- Witness for C5: the resampling step of the single item of a one-item
dataset; afterwards `cluster_assn[0]` references the live cluster (heap
cell 1) containing item 0. -/
theorem C5_reference_coherence_witness :
    assnOk [∅, {0}] [1] [1] 0 :=
  (C5_reference_coherence likOne usHalf 1).1 1 0 (⟨[{0}], [0], [0], [0]⟩, 0)
    (⟨[∅, {0}], [1], [1], [0, 0]⟩, 1) (by decide) (by decide)
    (by with_unfolding_all decide) 0 (by decide)

/-- **C7** (confirmed).  On a one-item dataset every successful `fit` run
returns exactly one cluster, and it is `{0}` — for every model
configuration (in particular every `alpha`), likelihood provider, and
randomness stream. -/
theorem C7_single_item (m : CRPClusterModel) (lik : Lik) (us : RngStream)
    (s : St) (a : ℚ) (h : m.fit lik us 1 = .ok (s, a)) :
    clusterVals s = [{0}] := by
  have h' : runPrefix m lik us 1 m.num_iter = .ok (s, a) := h
  obtain ⟨-, ⟨hdisj, hne, hbound, hcover⟩, -⟩ := runPrefix_inv h'
  have hall : ∀ C ∈ clusterVals s, C = {0} := by
    intro C hC
    have hsub : C ⊆ {0} := by
      intro x hx
      have hx1 := hbound C hC x hx
      rw [Finset.mem_range] at hx1
      simp [Nat.lt_one_iff.mp hx1]
    rcases Finset.subset_singleton_iff.mp hsub with h0 | h1
    · exact absurd h0 (hne C hC)
    · exact h1
  obtain ⟨C0, hC0, -⟩ := hcover 0 (Finset.mem_range.mpr Nat.one_pos)
  cases hv : clusterVals s with
  | nil => rw [hv] at hC0; cases hC0
  | cons C rest =>
      cases hrest : rest with
      | nil =>
          have hCeq : C = {0} := hall C (by rw [hv]; exact List.mem_cons_self _ _)
          rw [hCeq]
      | cons D rest2 =>
          have hCeq : C = {0} := hall C (by rw [hv]; exact List.mem_cons_self _ _)
          have hDeq : D = {0} := hall D
            (by rw [hv, hrest]; exact List.mem_cons_of_mem _ (List.mem_cons_self _ _))
          have hp := hdisj
          rw [hv, hrest, List.pairwise_cons] at hp
          have hempty := hp.1 D (List.mem_cons_self _ _)
          rw [hCeq, hDeq] at hempty
          simp at hempty

/-- Witness for C7: a concrete successful one-item run with `alpha = 2` and
one sweep ends with the single cluster `{0}`. -/
theorem C7_single_item_witness :
    clusterVals ⟨[∅, {0}], [1], [1], [0, 0]⟩ = [{0}] :=
  C7_single_item ⟨2, 1, 20, 5⟩ likOne usHalf ⟨[∅, {0}], [1], [1], [0, 0]⟩ 2
    (by with_unfolding_all decide)

/-- **C3** (confirmed).  With `eb_start = 20` and `eb_interval = 5` the
post-sweep Empirical Bayes update (source lines 112-113) leaves `alpha`
unchanged for every sweep index `t ≤ 20`, and overwrites it with the
per-sweep new-cluster counter exactly at the sweep indices `t` with
`t % 5 = 0 ∧ t > 20`, i.e. exactly `t ∈ {25, 30, 35, …}`.  The counter is
the second component produced by `sweep`, which starts at `0` at the start
of the sweep and is incremented by `sweepStep` exactly on new-cluster draws
(see their definitions, mirroring source lines 91-107); `fit` runs
`sweepEB` at every `t < num_iter`. -/
theorem C3_eb_schedule (lik : Lik) (us : RngStream) (alpha : ℚ) (N t : ℕ) (s s1 : St)
    (numNew : ℕ) (h : sweep lik us alpha N s = .ok (s1, numNew)) :
    sweepEB lik us 20 5 N t (s, alpha) =
      .ok (s1, if t % 5 = 0 ∧ 20 < t then (numNew : ℚ) else alpha) ∧
    ((t % 5 = 0 ∧ 20 < t) ↔ (25 ≤ t ∧ t % 5 = 0)) ∧
    (t ≤ 20 → sweepEB lik us 20 5 N t (s, alpha) = .ok (s1, alpha)) := by
  have h1 : sweepEB lik us 20 5 N t (s, alpha) =
      .ok (s1, if t % 5 = 0 ∧ 20 < t then (numNew : ℚ) else alpha) := by
    unfold sweepEB
    dsimp only []
    rw [h]
  refine ⟨h1, ⟨?_, ?_⟩, ?_⟩
  · rintro ⟨h5, h20⟩; exact ⟨by omega, h5⟩
  · rintro ⟨h25, h5⟩; exact ⟨h5, by omega⟩
  · intro ht
    rw [h1, if_neg]
    rintro ⟨_, h20⟩; omega

/-- Witness for C3: a concrete successful sweep on a one-item dataset with
`α = 3` creating one new cluster; at sweep index `t = 25` the update fires
and `alpha` becomes `1`. -/
theorem C3_eb_schedule_witness :
    sweepEB likOne usHalf 20 5 1 25 ((⟨[{0}], [0], [0], [0]⟩ : St), 3) =
      .ok (⟨[∅, {0}], [1], [1], [0, 0]⟩, (1 : ℚ)) := by
  have h := (C3_eb_schedule likOne usHalf 3 1 25 ⟨[{0}], [0], [0], [0]⟩
      ⟨[∅, {0}], [1], [1], [0, 0]⟩ 1 (by with_unfolding_all decide)).1
  simpa using h

/-- **C4** (corrected).  The source performs no validation of the combined
prior×likelihood vector and defines no `InvalidProbabilityVector` error:
it renormalizes unconditionally (`probs = probs/np.sum(probs)`, source
lines 73-74 and 101-102) and hands the result to `np.random.choice`.  This
theorem states the amended claim: no `fit` run ever produces the spec's
`InvalidProbabilityVector` error. -/
theorem C4_no_invalid_probability_vector (m : CRPClusterModel) (lik : Lik)
    (us : RngStream) (N : ℕ) (e : Err) (h : m.fit lik us N = .error e) :
    e ≠ .specInvalidProbabilityVector :=
  (fit_coreErr h).1

/-- Witness for C4's amended theorem at a concrete failing run: the error of
the degenerate zero-likelihood run is the sampler's, not the spec's
`InvalidProbabilityVector`. -/
theorem C4_no_invalid_probability_vector_witness :
    Err.samplerSum ≠ Err.specInvalidProbabilityVector :=
  C4_no_invalid_probability_vector (CRPClusterModel.init 1) likZero usHalf 1
    Err.samplerSum (by with_unfolding_all decide)

/-- Counterexample to C4 as stated: with an all-zero likelihood the combined
vector sums to zero, yet the run does not abort with
`InvalidProbabilityVector` before renormalizing — it renormalizes and then
fails inside the *external sampler's* own validation (numpy's
"probabilities do not sum to 1" check). -/
theorem C4_counterexample :
    (CRPClusterModel.init 1).fit likZero usHalf 1 = .error .samplerSum ∧
    Err.samplerSum ≠ Err.specInvalidProbabilityVector := by with_unfolding_all decide

/-- **C6** (confirmed).  The embedded `fit` is a pure function of the model,
the likelihood provider, the seeded randomness stream and the dataset
size: two runs whose streams agree pointwise (same seed) produce the same
output, including the recorded sequence of categorical draws
(`St.draws`) and hence the same final `clustering` and `cluster_assn`. -/
theorem C6_determinism (m : CRPClusterModel) (lik : Lik) (us1 us2 : RngStream) (N : ℕ)
    (h : ∀ n, us1 n = us2 n) : m.fit lik us1 N = m.fit lik us2 N := by
  rw [funext h]

/-- Witness for C6 at a concrete model, provider, stream, and dataset. -/
theorem C6_determinism_witness :
    CRPClusterModel.fit ⟨1, 1, 20, 5⟩ likOne usHalf 1 =
      CRPClusterModel.fit ⟨1, 1, 20, 5⟩ likOne (fun n => usHalf n) 1 :=
  C6_determinism ⟨1, 1, 20, 5⟩ likOne usHalf (fun n => usHalf n) 1 (fun _ => rfl)

/-- **C8** (corrected).  `__init__` performs no validation whatsoever: it
stores any `alpha` (including `alpha ≤ 0`) and unconditionally sets the
defaults `num_iter = 100`, `eb_start = 20`, `eb_interval = 5`
(`num_iter`/`eb_interval` are not even constructor parameters).  No
`InvalidConfiguration` error exists in the source. -/
theorem C8_constructor_unvalidated (alpha : ℚ) :
    CRPClusterModel.init alpha = ⟨alpha, 100, 20, 5⟩ := rfl

/-- Counterexample to C8 as stated: constructing with `alpha = -1 ≤ 0`
succeeds (no `InvalidConfiguration`), and sampling then begins normally —
a subsequent `fit` call runs to completion. -/
theorem C8_counterexample :
    CRPClusterModel.init (-1) = ⟨-1, 100, 20, 5⟩ ∧
    (CRPClusterModel.init (-1)).fit likOne usHalf 0 = .ok (⟨[], [], [], []⟩, 0) := by
  with_unfolding_all decide

/-- **C9** (corrected).  The source never checks the likelihood vector's
length and defines no `ContractViolation` error; numpy semantics govern a
mismatch instead (silent length-1 broadcasting, or numpy's broadcast
`ValueError`).  This theorem states the amended claim: no `fit` run ever
produces the spec's `ContractViolation` error. -/
theorem C9_no_contract_violation (m : CRPClusterModel) (lik : Lik)
    (us : RngStream) (N : ℕ) (e : Err) (h : m.fit lik us N = .error e) :
    e ≠ .specContractViolation :=
  (fit_coreErr h).2.2

/-- Witness for C9's amended theorem at a concrete failing run: a length-3
likelihood vector against 2 priors aborts with numpy's broadcast error,
which is not the spec's `ContractViolation`. -/
theorem C9_no_contract_violation_witness :
    Err.broadcastMismatch ≠ Err.specContractViolation :=
  C9_no_contract_violation ⟨1, 1, 20, 5⟩ likThree usTenth 2
    Err.broadcastMismatch (by with_unfolding_all decide)

/-- Counterexample to C9 as stated: a provider that always returns a
length-1 vector violates the `k + 1` length contract from the second item
on, yet `fit` completes successfully (numpy broadcasting); and a length-3
vector against 2 priors fails with numpy's broadcast error, not with
`ContractViolation`. -/
theorem C9_counterexample :
    CRPClusterModel.fit ⟨1, 1, 20, 5⟩ likLen1 usHalf 2 =
      .ok (⟨[∅, ∅, {0}, {1}], [2, 3], [2, 3], [0, 1, 1, 1]⟩, 1) ∧
    CRPClusterModel.fit ⟨1, 1, 20, 5⟩ likThree usTenth 2 = .error .broadcastMismatch ∧
    Err.broadcastMismatch ≠ Err.specContractViolation := by with_unfolding_all decide

/-- **C10** (corrected).  On an empty dataset `fit` returns an empty
clustering and empty assignment list with an empty draw record (the
sampler is never invoked), and the result does not depend on the
likelihood provider (the theorem quantifies over it).  However `alpha` IS
overwritten: every Empirical Bayes update that fires (at `t` with
`t % eb_interval = 0 ∧ t > eb_start`) sets it to `0.0` since no new
clusters are created, so the final `alpha` is `0` when some sweep index
below `num_iter` fires, and the original `alpha` otherwise.  The
hypothesis `0 < eb_interval` keeps the embedding on the Python-faithful
domain (Python raises `ZeroDivisionError` on `t % 0`). -/
theorem C10_empty_dataset (m : CRPClusterModel) (lik : Lik) (us : RngStream)
    (_hI : 0 < m.eb_interval) :
    ((∃ t ∈ Finset.range m.num_iter, t % m.eb_interval = 0 ∧ m.eb_start < t) →
      m.fit lik us 0 = .ok (⟨[], [], [], []⟩, 0)) ∧
    ((¬ ∃ t ∈ Finset.range m.num_iter, t % m.eb_interval = 0 ∧ m.eb_start < t) →
      m.fit lik us 0 = .ok (⟨[], [], [], []⟩, m.alpha)) := by
  have hrun : m.fit lik us 0 = .ok (⟨[], [], [], []⟩,
      if ∃ t ∈ Finset.range m.num_iter, t % m.eb_interval = 0 ∧ m.eb_start < t then 0
      else m.alpha) := by
    unfold CRPClusterModel.fit runPrefix
    have hinit : initialize_assn lik us m.alpha 0 = .ok ⟨[], [], [], []⟩ := rfl
    rw [hinit]
    exact emptyFold lik us m.eb_start m.eb_interval m.alpha m.num_iter
  exact ⟨fun hex => by rw [hrun, if_pos hex], fun hex => by rw [hrun, if_neg hex]⟩

/-- Witness for C10 with the default configuration (`num_iter = 100`,
`eb_start = 20`, `eb_interval = 5`): sweep 25 fires, so the final `alpha`
is `0`. -/
theorem C10_empty_dataset_witness :
    (CRPClusterModel.init 1).fit likOne usHalf 0 = .ok (⟨[], [], [], []⟩, 0) :=
  (C10_empty_dataset (CRPClusterModel.init 1) likOne usHalf (by decide)).1 (by decide)

/-- Counterexample to C10's "alpha is never overwritten": with `alpha = 2`
and the default configuration, `fit` on the empty dataset ends with
`alpha = 0 ≠ 2`. -/
theorem C10_counterexample :
    (CRPClusterModel.init 2).fit likOne usHalf 0 = .ok (⟨[], [], [], []⟩, 0) ∧
    (0 : ℚ) ≠ 2 := by with_unfolding_all decide

end CRP
